import Mathlib

/-!
Shallow embedding of the attachment-preparation pipeline and phone-number
validation of the `mailcertificado` client library
(`src/mailcertificado/api.py`), together with theorems settling the
specification claims about it.

External collaborators (MIME-type inference, base64 encode/decode, the PDF
page-merge primitive) are modelled as an abstract record of functions, as the
specification treats them: the core only composes them.
-/

namespace MailCertificado

/-- Binary content (a byte stream), abstract: the core never inspects bytes. -/
abbrev Bytes := List Nat

/-- An input attachment dict: `{name: ..., data: base64 text}`. -/
structure Attachment where
  name : String
  data : String
deriving DecidableEq, Repr

instance : Inhabited Attachment := ⟨⟨"", ""⟩⟩

/-- A normalized output attachment dict: `{name, type, size, data}`. -/
structure BuiltAttachment where
  name : String
  type : String
  size : Nat
  data : String
deriving DecidableEq, Repr

/-- Errors the embedded code can raise. `mc code description` is the uniform
`MailCertificadoException(code, description)`; `typeError` is a raw Python
`TypeError` escaping from below (not the uniform error type). -/
inductive PyError where
  | mc (code : Nat) (description : String)
  | typeError (msg : String)
deriving DecidableEq, Repr

/-- The external collaborators consumed by the core:
`mimetypes.guess_type` (first component only, `None` = unresolvable),
`base64.b64decode` / `base64.b64encode`, and the `PdfFileMerger`-based
page-merge primitive (append streams in order, write out one document). -/
structure Ext where
  guess_type : String → Option String
  b64decode : String → Bytes
  b64encode : Bytes → String
  mergePdf : List Bytes → Bytes

/-- The Python slice `mobile[-9:]`: the last nine characters of a string
(the whole string when it is shorter than nine characters). -/
def lastNine (s : String) : List Char :=
  s.data.drop (s.data.length - 9)

/-- Embedding of `MailCertificado.valid_mobile` (api.py lines 64-69):
`re.match('^[67][0-9]{8}$', mobile[-9:]) and True or False`.
A full match of the nine-character suffix: first character `6` or `7`,
then exactly eight characters in `[0-9]`. -/
def valid_mobile (mobile : String) : Bool :=
  match lastNine mobile with
  | [] => false
  | c :: rest =>
    (c = '6' || c = '7') && rest.length == 8 && rest.all (fun d => '0' ≤ d && d ≤ '9')

/-- The per-attachment normalization loop of `build_attachments`
(api.py lines 164-185): guess the MIME type from the file name, raising the
uniform error at the first unresolvable name; estimate the decoded size from
the base64 text length (`int(len(data) * 0.75)`, i.e. `3 * len / 4` since
`0.75` is exact); emit `{name, type, size, data}` records in input order. -/
def build_attachments_loop (E : Ext) : List Attachment → Except PyError (List BuiltAttachment)
  | [] => .ok []
  | attachment :: rest =>
    match E.guess_type attachment.name with
    | some t =>
      match build_attachments_loop E rest with
      | .ok l =>
        .ok ({ name := attachment.name, type := t,
               size := 3 * attachment.data.length / 4,
               data := attachment.data } :: l)
      | .error e => .error e
    | none => .error (.mc 0 ("Cannot guess mime type for " ++ attachment.name))

/-- Embedding of `MailCertificado.build_attachments` (api.py lines 124-185).
When `merge` is requested and more than one attachment is supplied, all
inferred MIME types must form a one-element set whose member is
`application/pdf` (`len(set(attach_types)) == 1 and attach_types[0] ==
'application/pdf'`); the payloads are then base64-decoded, page-merged in
input order, re-encoded, and the list is rebound to one synthesized
attachment named after the first input. Every (possibly collapsed)
attachment then goes through the normalization loop. -/
def build_attachments (E : Ext) (attachments : List Attachment) (merge : Bool) :
    Except PyError (List BuiltAttachment) :=
  if merge = true ∧ 1 < attachments.length then
    let attach_types := attachments.map (fun x => E.guess_type x.name)
    if attach_types.dedup.length = 1 ∧ attach_types.head? = some (some "application/pdf") then
      let merge_name := attachments.headI.name
      let merge_data :=
        E.b64encode (E.mergePdf (attachments.map (fun a => E.b64decode a.data)))
      build_attachments_loop E [⟨merge_name, merge_data⟩]
    else
      .error (.mc 0 "Merge only allowed if all files are pdfs")
  else
    build_attachments_loop E attachments

/-- The local pre-checks of `MailCertificado.send_agreement`
(api.py lines 212-231), run before any remote interaction. Under
`accept_method == 1` the code first notes a message when `accept_phone is
None`, but then unconditionally evaluates `self.valid_mobile(accept_phone)`:
with `accept_phone = None`, `mobile[-9:]` subscripts `None` and raises a raw
`TypeError`, so the prepared message is never raised. With a present but
invalid phone the uniform error is raised. Afterwards a present `sms_phone`
is validated the same way. -/
def send_agreement_checks (accept_method : Option Int) (accept_phone : Option String)
    (sms_phone : Option String) : Except PyError Unit :=
  match (if accept_method = some 1 then
          match accept_phone with
          | none => Except.error (PyError.typeError "NoneType object is not subscriptable")
          | some p =>
            if valid_mobile p then Except.ok ()
            else Except.error (PyError.mc 0
              ("Mobile phone " ++ p ++ " does not seem to be a valid number"))
        else Except.ok ()) with
  | .error e => .error e
  | .ok _ =>
    match sms_phone with
    | none => .ok ()
    | some p =>
      if valid_mobile p then .ok ()
      else .error (.mc 0 ("Mobile phone " ++ p ++ " do not seem to be a valid number"))

/-! ### General helper lemmas -/

lemma dedup_of_const {α : Type} [DecidableEq α] {a : α} :
    ∀ {l : List α}, l ≠ [] → (∀ x ∈ l, x = a) → l.dedup = [a] := by
  intro l
  induction l with
  | nil => intro h; exact absurd rfl h
  | cons x t ih =>
    intro _ hall
    cases t with
    | nil =>
      have hx : x = a := hall x (List.mem_singleton_self x)
      simp [hx]
    | cons y t2 =>
      have hx : x = a := hall x (List.mem_cons_self _ _)
      have hy : y = a := hall y (List.mem_cons_of_mem _ (List.mem_cons_self _ _))
      have hmem : x ∈ y :: t2 := by rw [hx, ← hy]; exact List.mem_cons_self _ _
      rw [List.dedup_cons_of_mem hmem]
      exact ih (List.cons_ne_nil _ _) (fun z hz => hall z (List.mem_cons_of_mem _ hz))

lemma eq_of_dedup_length_one {α : Type} [DecidableEq α] {l : List α}
    (h : l.dedup.length = 1) : ∀ x ∈ l, ∀ y ∈ l, x = y := by
  obtain ⟨a, ha⟩ := List.length_eq_one.mp h
  intro x hx y hy
  have hx2 : x ∈ l.dedup := List.mem_dedup.mpr hx
  have hy2 : y ∈ l.dedup := List.mem_dedup.mpr hy
  rw [ha, List.mem_singleton] at hx2 hy2
  rw [hx2, hy2]

/-! ### Claim C4 — valid_mobile characterization -/

/-- The pattern from the spec, stated on a character list: a full match of
"digit 6 or 7 followed by exactly 8 more digits". -/
def specMobileMatch (l : List Char) : Prop :=
  ∃ c rest, l = c :: rest ∧ (c = '6' ∨ c = '7') ∧ rest.length = 8 ∧
    ∀ d ∈ rest, '0' ≤ d ∧ d ≤ '9'

/-- Claim C4: `valid_mobile s` is true exactly when the last nine characters
of `s` fully match "digit 6 or 7 then exactly 8 more digits"; the two given
examples hold, and any string shorter than nine characters yields false. -/
theorem valid_mobile_characterization :
    (∀ s : String, valid_mobile s = true ↔ specMobileMatch (lastNine s))
    ∧ valid_mobile "612345678" = true
    ∧ valid_mobile "512345678" = false
    ∧ (∀ s : String, s.length < 9 → valid_mobile s = false) := by
  refine ⟨?_, by decide, by decide, ?_⟩
  · intro s
    unfold valid_mobile
    cases h : lastNine s with
    | nil =>
      simp only [specMobileMatch]
      constructor
      · intro hfalse; cases hfalse
      · rintro ⟨c, rest, hcons, -⟩; cases hcons
    | cons c rest =>
      simp only [specMobileMatch, Bool.and_eq_true, Bool.or_eq_true, decide_eq_true_eq,
        beq_iff_eq, List.all_eq_true, List.cons.injEq]
      constructor
      · rintro ⟨⟨hc, hlen⟩, hall⟩
        exact ⟨c, rest, ⟨rfl, rfl⟩, hc, hlen, fun d hd => by
          have := hall d hd
          simpa [Bool.and_eq_true, decide_eq_true_eq] using this⟩
      · rintro ⟨c2, rest2, ⟨hc, hrest⟩, hor, hlen, hall⟩
        subst hc; subst hrest
        refine ⟨⟨hor, hlen⟩, fun d hd => ?_⟩
        have := hall d hd
        simp [Bool.and_eq_true, decide_eq_true_eq, this.1, this.2]
  · intro s hs
    have hdata : s.data.length < 9 := hs
    have h9 : lastNine s = s.data := by
      unfold lastNine
      have : s.data.length - 9 = 0 := by omega
      rw [this, List.drop_zero]
    unfold valid_mobile
    rw [h9]
    cases hd : s.data with
    | nil => rfl
    | cons c rest =>
      have hlen : rest.length ≠ 8 := by
        rw [hd] at hdata
        simp only [List.length_cons] at hdata
        omega
      simp [hlen]

/-- Witness for C4 at a concrete short string. -/
theorem valid_mobile_characterization_witness : valid_mobile "61234" = false :=
  valid_mobile_characterization.2.2.2 "61234" (by decide)

/-! ### Claim C8 — merge is a no-op on singleton lists -/

/-- Claim C8: on a one-element attachment list, `build_attachments` with
`merge = true` returns exactly what it returns with `merge = false` (the
merge branch requires more than one attachment). -/
theorem build_attachments_merge_noop_singleton (E : Ext) (a : Attachment) :
    build_attachments E [a] true = build_attachments E [a] false := by
  unfold build_attachments
  simp

/-! ### Lemmas about the normalization loop -/

lemma loop_ok_shape {E : Ext} : ∀ {l : List Attachment} {out : List BuiltAttachment},
    build_attachments_loop E l = .ok out →
    out.map (fun r => r.name) = l.map (fun a => a.name) ∧
    out.map (fun r => r.data) = l.map (fun a => a.data) := by
  intro l
  induction l with
  | nil =>
    intro out h
    simp only [build_attachments_loop, Except.ok.injEq] at h
    subst h; simp
  | cons a t ih =>
    intro out h
    unfold build_attachments_loop at h
    cases hg : E.guess_type a.name with
    | none => rw [hg] at h; cases h
    | some ty =>
      rw [hg] at h
      cases hr : build_attachments_loop E t with
      | error e => rw [hr] at h; cases h
      | ok l2 =>
        rw [hr] at h
        simp only [Except.ok.injEq] at h
        subst h
        obtain ⟨h1, h2⟩ := ih hr
        simp [h1, h2]

lemma loop_ok_size {E : Ext} : ∀ {l : List Attachment} {out : List BuiltAttachment},
    build_attachments_loop E l = .ok out →
    ∀ r ∈ out, r.size = 3 * r.data.length / 4 := by
  intro l
  induction l with
  | nil =>
    intro out h
    simp only [build_attachments_loop, Except.ok.injEq] at h
    subst h; simp
  | cons a t ih =>
    intro out h
    unfold build_attachments_loop at h
    cases hg : E.guess_type a.name with
    | none => rw [hg] at h; cases h
    | some ty =>
      rw [hg] at h
      cases hr : build_attachments_loop E t with
      | error e => rw [hr] at h; cases h
      | ok l2 =>
        rw [hr] at h
        simp only [Except.ok.injEq] at h
        subst h
        intro r hr2
        rcases List.mem_cons.mp hr2 with heq | hmem
        · subst heq; rfl
        · exact ih hr r hmem

lemma loop_err_of_bad {E : Ext} : ∀ {l : List Attachment},
    (∃ a ∈ l, E.guess_type a.name = none) →
    ∃ a ∈ l, E.guess_type a.name = none ∧
      build_attachments_loop E l =
        .error (.mc 0 ("Cannot guess mime type for " ++ a.name)) := by
  intro l
  induction l with
  | nil => rintro ⟨a, ha, -⟩; cases ha
  | cons x t ih =>
    rintro ⟨a, ha, hnone⟩
    cases hg : E.guess_type x.name with
    | none =>
      refine ⟨x, List.mem_cons_self _ _, hg, ?_⟩
      unfold build_attachments_loop
      rw [hg]
    | some ty =>
      have hat : a ∈ t := by
        rcases List.mem_cons.mp ha with heq | hmem
        · subst heq; rw [hg] at hnone; cases hnone
        · exact hmem
      obtain ⟨b, hb, hbnone, herr⟩ := ih ⟨a, hat, hnone⟩
      refine ⟨b, List.mem_cons_of_mem _ hb, hbnone, ?_⟩
      unfold build_attachments_loop
      rw [hg, herr]

/-! ### Claim C6 — unresolvable MIME type in the normalization step -/

/-- Claim C6: when the (non-merging) call reaches per-attachment
normalization and some attachment's name has no inferable MIME type,
`build_attachments` fails with the uniform error whose description mentions
that attachment's file name; being an error, no partial list is returned. -/
theorem build_attachments_mime_failure (E : Ext) (attachments : List Attachment)
    (merge : Bool) (hnm : ¬ (merge = true ∧ 1 < attachments.length))
    (hbad : ∃ a ∈ attachments, E.guess_type a.name = none) :
    ∃ a ∈ attachments, E.guess_type a.name = none ∧
      build_attachments E attachments merge =
        .error (.mc 0 ("Cannot guess mime type for " ++ a.name)) := by
  obtain ⟨a, ha, hnone, herr⟩ := loop_err_of_bad hbad
  refine ⟨a, ha, hnone, ?_⟩
  unfold build_attachments
  rw [if_neg hnm]
  exact herr

/-- Witness for C6: a one-element list with an unknown extension. -/
theorem build_attachments_mime_failure_witness :
    ∃ a ∈ [Attachment.mk "x.unknownext" "YQ=="],
      (fun _ : String => (none : Option String)) a.name = none ∧
      build_attachments
        ⟨fun _ => none, fun s => [s.length], fun _ => "", List.flatten⟩
        [Attachment.mk "x.unknownext" "YQ=="] false =
        .error (.mc 0 ("Cannot guess mime type for " ++ a.name)) :=
  build_attachments_mime_failure
    ⟨fun _ => none, fun s => [s.length], fun _ => "", List.flatten⟩
    [Attachment.mk "x.unknownext" "YQ=="] false (by decide)
    ⟨Attachment.mk "x.unknownext" "YQ==", by simp, rfl⟩

/-! ### Claim C3 — the size field is floor(0.75 * base64 length) -/

lemma size_eq_floor (n : ℕ) : 3 * n / 4 = ⌊(3 / 4 : ℚ) * n⌋₊ := by
  have h : (3 / 4 : ℚ) * n = ((3 * n : ℕ) : ℚ) / ((4 : ℕ) : ℚ) := by
    push_cast; ring
  rw [h, Nat.floor_div_nat, Nat.floor_natCast]

/-- Claim C3: every record emitted by a successful `build_attachments` call,
merged or passthrough, has `size = floor(0.75 * len(base64 data))` exactly
(`0.75 = 3/4` is exact, so `int(len * 0.75)` is this floor). -/
theorem build_attachments_size_estimate (E : Ext) (attachments : List Attachment)
    (merge : Bool) (out : List BuiltAttachment)
    (h : build_attachments E attachments merge = .ok out) :
    ∀ r ∈ out, r.size = ⌊(3 / 4 : ℚ) * r.data.length⌋₊ := by
  have hloop : ∀ r ∈ out, r.size = 3 * r.data.length / 4 := by
    unfold build_attachments at h
    by_cases hc : merge = true ∧ 1 < attachments.length
    · rw [if_pos hc] at h
      by_cases hc2 : ((attachments.map fun x => E.guess_type x.name).dedup.length = 1 ∧
          (attachments.map fun x => E.guess_type x.name).head? =
            some (some "application/pdf"))
      · rw [if_pos hc2] at h
        exact loop_ok_size h
      · rw [if_neg hc2] at h; cases h
    · rw [if_neg hc] at h
      exact loop_ok_size h
  intro r hr
  rw [hloop r hr, size_eq_floor]

/-- Witness for C3 at a concrete passthrough call. -/
theorem build_attachments_size_estimate_witness :
    (BuiltAttachment.mk "a.pdf" "application/pdf" 3 "QUJD").size =
      ⌊(3 / 4 : ℚ) * (BuiltAttachment.mk "a.pdf" "application/pdf" 3 "QUJD").data.length⌋₊ :=
  build_attachments_size_estimate
    ⟨fun _ => some "application/pdf", fun s => [s.length], fun _ => "", List.flatten⟩
    [Attachment.mk "a.pdf" "QUJD"] false
    [BuiltAttachment.mk "a.pdf" "application/pdf" 3 "QUJD"] rfl
    (BuiltAttachment.mk "a.pdf" "application/pdf" 3 "QUJD") (by simp)

/-! ### Lemmas about the merge-eligibility condition -/

lemma merge_cond_of_all_pdf {E : Ext} {attachments : List Attachment}
    (hne : attachments ≠ [])
    (hall : ∀ a ∈ attachments, E.guess_type a.name = some "application/pdf") :
    (attachments.map fun x => E.guess_type x.name).dedup.length = 1 ∧
    (attachments.map fun x => E.guess_type x.name).head? =
      some (some "application/pdf") := by
  have htypes : ∀ t ∈ attachments.map (fun x => E.guess_type x.name),
      t = some "application/pdf" := by
    intro t ht
    obtain ⟨a, ha, rfl⟩ := List.mem_map.mp ht
    exact hall a ha
  have hne2 : attachments.map (fun x => E.guess_type x.name) ≠ [] := by
    simpa using hne
  constructor
  · rw [dedup_of_const hne2 htypes]
    rfl
  · cases attachments with
    | nil => exact absurd rfl hne
    | cons a t =>
      simp only [List.map_cons, List.head?_cons, Option.some.injEq]
      exact hall a (List.mem_cons_self _ _)

/-! ### Claim C1 — merged result on an all-PDF list -/

/-- Claim C1: with `merge = true` and at least two attachments whose names
all infer `application/pdf`, the result is exactly one record named after
the first input, whose data is the re-encoding of the page-merge of the
decoded payloads in input order. -/
theorem build_attachments_merge_all_pdfs (E : Ext) (a1 a2 : Attachment)
    (rest : List Attachment)
    (hall : ∀ a ∈ a1 :: a2 :: rest, E.guess_type a.name = some "application/pdf") :
    build_attachments E (a1 :: a2 :: rest) true =
      .ok [⟨a1.name, "application/pdf",
            3 * (E.b64encode (E.mergePdf
              ((a1 :: a2 :: rest).map fun a => E.b64decode a.data))).length / 4,
            E.b64encode (E.mergePdf
              ((a1 :: a2 :: rest).map fun a => E.b64decode a.data))⟩] := by
  have h1 : E.guess_type a1.name = some "application/pdf" :=
    hall a1 (List.mem_cons_self _ _)
  obtain ⟨hd, hh⟩ := merge_cond_of_all_pdf (List.cons_ne_nil _ _) hall
  unfold build_attachments
  rw [if_pos ⟨rfl, by simp⟩, if_pos ⟨hd, hh⟩]
  simp [build_attachments_loop, List.headI, h1]

/-- Witness for C1: two concrete PDFs through concrete external primitives. -/
theorem build_attachments_merge_all_pdfs_witness :
    build_attachments
        ⟨fun _ => some "application/pdf", fun s => [s.length],
         fun bs => String.mk (bs.map fun _ => 'x'), List.flatten⟩
        [Attachment.mk "a.pdf" "QUJD", Attachment.mk "b.pdf" "WFla"] true =
      .ok [⟨"a.pdf", "application/pdf", 1, "xx"⟩] := by
  have h := build_attachments_merge_all_pdfs
    ⟨fun _ => some "application/pdf", fun s => [s.length],
     fun bs => String.mk (bs.map fun _ => 'x'), List.flatten⟩
    (Attachment.mk "a.pdf" "QUJD") (Attachment.mk "b.pdf" "WFla") []
    (by intro a _; rfl)
  exact h

/-! ### Claim C2 — merge demands a uniform all-PDF type set -/

/-- Claim C2: with `merge = true` and more than one attachment, whenever the
set of inferred MIME types is not exactly the singleton
`{application/pdf}`, the call fails with the uniform merge-eligibility
error (no hypothesis about the `merge = false` outcome is involved). -/
theorem build_attachments_merge_requires_pdfs (E : Ext)
    (attachments : List Attachment) (hlen : 1 < attachments.length)
    (hset : (attachments.map fun x => E.guess_type x.name).toFinset ≠
      {some "application/pdf"}) :
    build_attachments E attachments true =
      .error (.mc 0 "Merge only allowed if all files are pdfs") := by
  unfold build_attachments
  rw [if_pos ⟨rfl, hlen⟩]
  by_cases hc2 : ((attachments.map fun x => E.guess_type x.name).dedup.length = 1 ∧
      (attachments.map fun x => E.guess_type x.name).head? =
        some (some "application/pdf"))
  · exfalso
    apply hset
    obtain ⟨h1, h2⟩ := hc2
    have hmemHead : some "application/pdf" ∈
        attachments.map (fun x => E.guess_type x.name) := by
      cases hm : attachments.map (fun x => E.guess_type x.name) with
      | nil => rw [hm] at h2; cases h2
      | cons t ts =>
        rw [hm] at h2
        simp only [List.head?_cons, Option.some.injEq] at h2
        rw [← h2]
        exact List.mem_cons_self _ _
    have hallpdf : ∀ x ∈ attachments.map (fun x => E.guess_type x.name),
        x = some "application/pdf" :=
      fun x hx => eq_of_dedup_length_one h1 x hx _ hmemHead
    exact Finset.eq_singleton_iff_unique_mem.mpr
      ⟨List.mem_toFinset.mpr hmemHead,
       fun b hb => hallpdf b (List.mem_toFinset.mp hb)⟩
  · rw [if_neg hc2]

/-- Witness for C2: a PDF next to a text file. -/
theorem build_attachments_merge_requires_pdfs_witness :
    build_attachments
        ⟨fun n => if n = "a.pdf" then some "application/pdf" else some "text/plain",
         fun s => [s.length], fun _ => "", List.flatten⟩
        [Attachment.mk "a.pdf" "QUJD", Attachment.mk "c.txt" "YQ=="] true =
      .error (.mc 0 "Merge only allowed if all files are pdfs") :=
  build_attachments_merge_requires_pdfs
    ⟨fun n => if n = "a.pdf" then some "application/pdf" else some "text/plain",
     fun s => [s.length], fun _ => "", List.flatten⟩
    [Attachment.mk "a.pdf" "QUJD", Attachment.mk "c.txt" "YQ=="]
    (by decide) (by decide)

/-! ### Claim C10 — all-unresolvable lists hit the merge-eligibility error -/

/-- Claim C10: with `merge = true`, more than one attachment, and no name
inferring any MIME type, the inferred-type list is constantly `None`: a
one-element set that is not `application/pdf`, so the call fails with the
merge-eligibility error, not the per-file MIME-inference error. -/
theorem build_attachments_merge_all_unresolvable (E : Ext)
    (attachments : List Attachment) (hlen : 1 < attachments.length)
    (hnone : ∀ a ∈ attachments, E.guess_type a.name = none) :
    build_attachments E attachments true =
      .error (.mc 0 "Merge only allowed if all files are pdfs") := by
  unfold build_attachments
  rw [if_pos ⟨rfl, hlen⟩]
  have hc2 : ¬ ((attachments.map fun x => E.guess_type x.name).dedup.length = 1 ∧
      (attachments.map fun x => E.guess_type x.name).head? =
        some (some "application/pdf")) := by
    rintro ⟨-, h2⟩
    cases attachments with
    | nil => cases h2
    | cons a t =>
      simp only [List.map_cons, List.head?_cons, Option.some.injEq] at h2
      rw [hnone a (List.mem_cons_self _ _)] at h2
      cases h2
  rw [if_neg hc2]

/-- Witness for C10: two attachments with unknown extensions. -/
theorem build_attachments_merge_all_unresolvable_witness :
    build_attachments
        ⟨fun _ => none, fun s => [s.length], fun _ => "", List.flatten⟩
        [Attachment.mk "x.unknownext" "YQ==", Attachment.mk "y.unknownext" "YQ=="]
        true =
      .error (.mc 0 "Merge only allowed if all files are pdfs") :=
  build_attachments_merge_all_unresolvable
    ⟨fun _ => none, fun s => [s.length], fun _ => "", List.flatten⟩
    [Attachment.mk "x.unknownext" "YQ==", Attachment.mk "y.unknownext" "YQ=="]
    (by decide) (by intro a _; rfl)

/-! ### Claim C7 — shape and order of successful results -/

/-- Claim C7: on success the output mirrors the (possibly collapsed) input
order: one record named after the first input when the merge branch
applied, otherwise one record per input carrying its name and data; and the
empty list under `merge = true` yields the empty list without error. -/
theorem build_attachments_shape (E : Ext) (attachments : List Attachment)
    (merge : Bool) (out : List BuiltAttachment)
    (h : build_attachments E attachments merge = .ok out) :
    ((merge = true ∧ 1 < attachments.length) →
        out.length = 1 ∧ out.map (fun r => r.name) = [attachments.headI.name])
    ∧ (¬ (merge = true ∧ 1 < attachments.length) →
        out.length = attachments.length ∧
        out.map (fun r => r.name) = attachments.map (fun a => a.name) ∧
        out.map (fun r => r.data) = attachments.map (fun a => a.data))
    ∧ build_attachments E [] true = .ok [] := by
  refine ⟨?_, ?_, rfl⟩
  · intro hc
    unfold build_attachments at h
    rw [if_pos hc] at h
    by_cases hc2 : ((attachments.map fun x => E.guess_type x.name).dedup.length = 1 ∧
        (attachments.map fun x => E.guess_type x.name).head? =
          some (some "application/pdf"))
    · rw [if_pos hc2] at h
      obtain ⟨h1, -⟩ := loop_ok_shape h
      have hlen := congrArg List.length h1
      simp only [List.length_map, List.map_cons, List.map_nil, List.length_cons,
        List.length_nil] at hlen
      refine ⟨hlen, ?_⟩
      simpa using h1
    · rw [if_neg hc2] at h
      cases h
  · intro hc
    unfold build_attachments at h
    rw [if_neg hc] at h
    obtain ⟨h1, h2⟩ := loop_ok_shape h
    have hlen := congrArg List.length h1
    simp only [List.length_map] at hlen
    exact ⟨hlen, h1, h2⟩

/-- Witness for C7 at a concrete merged call. -/
theorem build_attachments_shape_witness :
    [BuiltAttachment.mk "a.pdf" "application/pdf" 1 "xx"].length = 1 ∧
    [BuiltAttachment.mk "a.pdf" "application/pdf" 1 "xx"].map (fun r => r.name) =
      [[Attachment.mk "a.pdf" "QUJD", Attachment.mk "b.pdf" "WFla"].headI.name] :=
  (build_attachments_shape
    ⟨fun _ => some "application/pdf", fun s => [s.length],
     fun bs => String.mk (bs.map fun _ => 'x'), List.flatten⟩
    [Attachment.mk "a.pdf" "QUJD", Attachment.mk "b.pdf" "WFla"] true
    [BuiltAttachment.mk "a.pdf" "application/pdf" 1 "xx"] rfl).1
    (by decide)

/-! ### Claim C5 — send_agreement pre-checks under accept_method = 1 -/

/-- Claim C5 (code bug): with `accept_method = 1` and a missing
`accept_phone`, the pre-checks raise a raw `TypeError` (from
`None[-9:]` inside `valid_mobile`), never the uniform
`MailCertificadoException` the specification promises; with a present but
invalid phone the uniform error is raised as specified. -/
theorem send_agreement_checks_missing_phone_typeerror :
    send_agreement_checks (some 1) none none =
      .error (.typeError "NoneType object is not subscriptable")
    ∧ (∀ code descr,
        send_agreement_checks (some 1) none none ≠ .error (.mc code descr))
    ∧ send_agreement_checks (some 1) (some "512345678") none =
      .error (.mc 0 "Mobile phone 512345678 does not seem to be a valid number") := by
  refine ⟨rfl, ?_, rfl⟩
  intro code descr h
  rw [show send_agreement_checks (some 1) none none =
        Except.error (PyError.typeError "NoneType object is not subscriptable")
      from rfl] at h
  injection h with h2
  exact PyError.noConfusion h2

/-- Witness for C5: the uniform error with a concrete code and description
is indeed not what the missing-phone call produces. -/
theorem send_agreement_checks_missing_phone_typeerror_witness :
    send_agreement_checks (some 1) none none ≠
      .error (.mc 0 "Cannot use sms acceptance method without a phone number") :=
  send_agreement_checks_missing_phone_typeerror.2.1 0
    "Cannot use sms acceptance method without a phone number"

/-! ### Claim C9 — build_attachments does not mutate its arguments -/

/-- Dereference an attachment-dict handle in the store. -/
def readAtt (dicts : List Attachment) (r : Nat) : Attachment :=
  (dicts.get? r).getD default

/-- Store-passing reading of `build_attachments`: `dicts` is the store of
attachment dicts and the input list holds handles into it. Every source
operation on the inputs is a read (`x['name']`, `attachment['data']`); the
merge branch allocates one fresh dict (`attachments = [{...}]`) and rebinds
the local name to a fresh one-handle list; no store index is ever written.
The returned store is the final one. -/
def build_attachments_ref (E : Ext) (dicts : List Attachment) (refs : List Nat)
    (merge : Bool) : List Attachment × Except PyError (List BuiltAttachment) :=
  if merge = true ∧ 1 < refs.length then
    let attach_types := refs.map fun r => E.guess_type (readAtt dicts r).name
    if attach_types.dedup.length = 1 ∧ attach_types.head? = some (some "application/pdf") then
      let merge_name := (readAtt dicts refs.headI).name
      let merge_data :=
        E.b64encode (E.mergePdf (refs.map fun r => E.b64decode (readAtt dicts r).data))
      let dicts2 := dicts ++ [⟨merge_name, merge_data⟩]
      (dicts2, build_attachments_loop E ([dicts.length].map (readAtt dicts2)))
    else (dicts, .error (.mc 0 "Merge only allowed if all files are pdfs"))
  else (dicts, build_attachments_loop E (refs.map (readAtt dicts)))

/-- Claim C9: on every call, successful or failing, the final store extends
the initial one by fresh allocations only, so every pre-existing input dict
still holds exactly the entries it held before the call (the prefix of the
final store of the original length is the original store). -/
theorem build_attachments_ref_frame (E : Ext) (dicts : List Attachment)
    (refs : List Nat) (merge : Bool) :
    ∃ fresh : List Attachment,
      (build_attachments_ref E dicts refs merge).1 = dicts ++ fresh ∧
      (build_attachments_ref E dicts refs merge).1.take dicts.length = dicts := by
  unfold build_attachments_ref
  by_cases hc : merge = true ∧ 1 < refs.length
  · rw [if_pos hc]
    by_cases hc2 : ((refs.map fun r => E.guess_type (readAtt dicts r).name).dedup.length = 1 ∧
        (refs.map fun r => E.guess_type (readAtt dicts r).name).head? =
          some (some "application/pdf"))
    · rw [if_pos hc2]
      refine ⟨_, rfl, ?_⟩
      simp [List.take_left]
    · rw [if_neg hc2]
      exact ⟨[], by simp, by simp⟩
  · rw [if_neg hc]
    exact ⟨[], by simp, by simp⟩

end MailCertificado
